import Mathlib

/-!
Verification of the jersey-template image pipeline.

The development shallowly embeds the core image-geometry code of the
repository: the alpha-aware content-bounds scanner (`getContentBounds`),
the custom transparent-trim fallback (`customTrim`), the vertical mirror
(`flip`), the collar preparation stage, and the layer-stacking arithmetic
of the compositor (`composeLayout`).  Raster images are modelled as a
width, a height and a list of rows, each row being the raw RGBA bytes of
that row (four bytes per pixel), matching the flat `data` buffer the
source indexes as `(y * width + x) * channels + 3` for the alpha byte.
-/

namespace Jersey

/-- Decoded raster image: width, height and per-row RGBA byte lists.
Row `y` holds `width * 4` bytes; the alpha byte of pixel `(x, y)` sits at
offset `x * 4 + 3` of row `y`, exactly as the source reads
`data[(y * info.width + x) * channels + 3]` on an `ensureAlpha`
(4-channel) buffer. -/
structure RasterImage where
  width : Nat
  height : Nat
  rows : List (List Nat)
deriving DecidableEq

/-- Well-formedness of a raster: the row list matches the declared height
and every row holds exactly `width * 4` bytes. -/
def RasterImage.Wf (img : RasterImage) : Prop :=
  img.rows.length = img.height ∧ ∀ row ∈ img.rows, row.length = img.width * 4

instance (img : RasterImage) : Decidable img.Wf := by
  unfold RasterImage.Wf
  exact inferInstance

/-- Alpha byte of pixel `(x, y)`; out-of-range reads yield 0, matching the
falsy `undefined > threshold` comparison the source performs on
out-of-bounds buffer reads. -/
def RasterImage.alphaAt (img : RasterImage) (x y : Nat) : Nat :=
  (img.rows.getD y []).getD (x * 4 + 3) 0

/-- Vertical flip (sharp `.flip()`): rows reversed top-to-bottom, bytes of
each row untouched. -/
def flip (img : RasterImage) : RasterImage :=
  { img with rows := img.rows.reverse }

/-- First index `j < n` (scanning upward from 0) with `p j = true`: the
shape of the source loops `for (y = 0; y < h && minY === h; y++)`. -/
def scanFirst (p : Nat → Bool) : Nat → Option Nat
  | 0 => none
  | n + 1 =>
    match scanFirst p n with
    | some k => some k
    | none => if p n then some n else none

/-- Last index `j < n` (scanning downward from `n - 1`) with `p j = true`:
the shape of the source loops `for (y = h - 1; y >= 0 && maxY === 0; y--)`. -/
def scanLast (p : Nat → Bool) : Nat → Option Nat
  | 0 => none
  | n + 1 => if p n then some n else scanLast p n

theorem scanFirst_none_of (p : Nat → Bool) (n : Nat)
    (h : ∀ j, j < n → p j = false) : scanFirst p n = none := by
  induction n with
  | zero => rfl
  | succ n ih =>
    have h1 : scanFirst p n = none := ih (fun j hj => h j (Nat.lt_succ_of_lt hj))
    simp [scanFirst, h1, h n (Nat.lt_succ_self n)]

theorem scanFirst_of_none (p : Nat → Bool) (n : Nat)
    (h : scanFirst p n = none) : ∀ j, j < n → p j = false := by
  induction n with
  | zero => intro j hj; exact absurd hj (Nat.not_lt_zero j)
  | succ n ih =>
    intro j hj
    rw [scanFirst] at h
    cases hsc : scanFirst p n with
    | some k => rw [hsc] at h; simp at h
    | none =>
      rw [hsc] at h
      simp only [] at h
      have hpf : p n = false := by
        by_cases hp : p n = true
        · rw [if_pos hp] at h; cases h
        · simpa using hp
      rcases Nat.lt_succ_iff_lt_or_eq.mp hj with hlt | heq
      · exact ih hsc j hlt
      · rw [heq]; exact hpf

theorem scanFirst_some_spec (p : Nat → Bool) (n k : Nat)
    (h : scanFirst p n = some k) :
    k < n ∧ p k = true ∧ ∀ j, j < k → p j = false := by
  induction n with
  | zero => cases h
  | succ n ih =>
    rw [scanFirst] at h
    cases hsc : scanFirst p n with
    | some m =>
      rw [hsc] at h
      simp only [Option.some.injEq] at h
      rcases ih (h ▸ hsc) with ⟨h1, h2, h3⟩
      exact ⟨Nat.lt_succ_of_lt h1, h2, h3⟩
    | none =>
      rw [hsc] at h
      simp only [] at h
      by_cases hp : p n = true
      · rw [if_pos hp] at h
        simp only [Option.some.injEq] at h
        subst h
        exact ⟨Nat.lt_succ_self n, hp, fun j hj => scanFirst_of_none p n hsc j hj⟩
      · rw [if_neg hp] at h; cases h

theorem scanFirst_some_of (p : Nat → Bool) (n k : Nat)
    (hk : k < n) (hp : p k = true) (hmin : ∀ j, j < k → p j = false) :
    scanFirst p n = some k := by
  induction n with
  | zero => exact absurd hk (Nat.not_lt_zero k)
  | succ n ih =>
    rw [scanFirst]
    rcases Nat.lt_succ_iff_lt_or_eq.mp hk with hlt | heq
    · rw [ih hlt]
    · subst heq
      rw [scanFirst_none_of p k hmin, if_pos hp]

theorem scanLast_none_of (p : Nat → Bool) (n : Nat)
    (h : ∀ j, j < n → p j = false) : scanLast p n = none := by
  induction n with
  | zero => rfl
  | succ n ih =>
    rw [scanLast, if_neg (by simp [h n (Nat.lt_succ_self n)])]
    exact ih (fun j hj => h j (Nat.lt_succ_of_lt hj))

theorem scanLast_of_none (p : Nat → Bool) (n : Nat)
    (h : scanLast p n = none) : ∀ j, j < n → p j = false := by
  induction n with
  | zero => intro j hj; exact absurd hj (Nat.not_lt_zero j)
  | succ n ih =>
    intro j hj
    rw [scanLast] at h
    have hpf : p n = false := by
      by_cases hp : p n = true
      · rw [if_pos hp] at h; cases h
      · simpa using hp
    rw [if_neg (by simp [hpf])] at h
    rcases Nat.lt_succ_iff_lt_or_eq.mp hj with hlt | heq
    · exact ih h j hlt
    · rw [heq]; exact hpf

theorem scanLast_some_spec (p : Nat → Bool) (n k : Nat)
    (h : scanLast p n = some k) :
    k < n ∧ p k = true ∧ ∀ j, k < j → j < n → p j = false := by
  induction n with
  | zero => cases h
  | succ n ih =>
    rw [scanLast] at h
    by_cases hp : p n = true
    · rw [if_pos hp] at h
      simp only [Option.some.injEq] at h
      subst h
      exact ⟨Nat.lt_succ_self n, hp, fun j hj1 hj2 => absurd hj2 (by omega)⟩
    · rw [if_neg hp] at h
      rcases ih h with ⟨h1, h2, h3⟩
      refine ⟨Nat.lt_succ_of_lt h1, h2, fun j hj1 hj2 => ?_⟩
      rcases Nat.lt_succ_iff_lt_or_eq.mp hj2 with hlt | heq
      · exact h3 j hj1 hlt
      · rw [heq]; simpa using hp

theorem scanLast_some_of (p : Nat → Bool) (n k : Nat)
    (hk : k < n) (hp : p k = true) (hmax : ∀ j, k < j → j < n → p j = false) :
    scanLast p n = some k := by
  induction n with
  | zero => exact absurd hk (Nat.not_lt_zero k)
  | succ n ih =>
    rw [scanLast]
    rcases Nat.lt_succ_iff_lt_or_eq.mp hk with hlt | heq
    · rw [if_neg (by simp [hmax n hlt (Nat.lt_succ_self n)]),
        ih hlt (fun j hj1 hj2 => hmax j hj1 (Nat.lt_succ_of_lt hj2))]
    · subst heq
      rw [if_pos hp]

/-- Row predicate of the edge scans: some pixel `x < width` of row `y`
has alpha strictly above the threshold (`alpha > alphaThreshold`). -/
def rowHasContent (img : RasterImage) (t y : Nat) : Bool :=
  (List.range img.width).any fun x => t < img.alphaAt x y

/-- Column predicate of the left/right scans: some row `y` in the
inclusive band `[top, bottom]` has alpha above the threshold at column
`x` (the source iterates `for (y = minY; y <= maxY; y++)`). -/
def colHasContent (img : RasterImage) (t top bottom x : Nat) : Bool :=
  (List.range (bottom + 1 - top)).any fun i => t < img.alphaAt x (top + i)

/-- Inclusive content rectangle returned by the scanner, with the derived
`height = maxY - minY + 1` and `width = maxX - minX + 1` fields the
source also returns (computed in `Int` since they go negative when the
sentinel values `minY = height`, `maxY = 0` are left untouched). -/
structure ContentBounds where
  top : Nat
  bottom : Nat
  left : Nat
  right : Nat
  height : Int
  width : Int
deriving DecidableEq

/-- Alpha threshold of the per-side `getContentBounds` helper (the source
literal `alphaThreshold = 1`). -/
def preciseAlphaThreshold : Nat := 1

/-- Alpha threshold of the custom transparent-trim fallback (the source
literal `alphaThreshold = 5`). -/
def strictAlphaThreshold : Nat := 5

/-- Content-bounds scanner `getContentBounds`: four edge scans with early
exit.  `minY` starts at `height` and the top loop runs while it is
untouched; `maxY` starts at `0` and the bottom loop scans upward from the
last row; the left/right column scans only examine rows in
`[minY, maxY]`.  Untouched sentinels (`height`, `0`, `width`, `0`) are
returned as-is when no pixel qualifies. -/
def getContentBounds (img : RasterImage) (t : Nat) : ContentBounds :=
  let minY := (scanFirst (rowHasContent img t) img.height).getD img.height
  let maxY := (scanLast (rowHasContent img t) img.height).getD 0
  let minX := (scanFirst (colHasContent img t minY maxY) img.width).getD img.width
  let maxX := (scanLast (colHasContent img t minY maxY) img.width).getD 0
  { top := minY, bottom := maxY, left := minX, right := maxX,
    height := (maxY : Int) - (minY : Int) + 1,
    width := (maxX : Int) - (minX : Int) + 1 }

/-- True when some pixel of the frame exceeds the threshold, i.e. some
row `y < height` contains content. -/
def hasAnyContent (img : RasterImage) (t : Nat) : Bool :=
  (List.range img.height).any fun y => rowHasContent img t y

/-- Pixel-region extraction (sharp `.extract({ left, top, width,
height })`): keep `h` rows starting at `top` and, within each, the
`w * 4` bytes starting at byte `left * 4`. -/
def extractRegion (img : RasterImage) (left top w h : Nat) : RasterImage :=
  { width := w, height := h,
    rows := ((img.rows.drop top).take h).map fun row =>
      (row.drop (left * 4)).take (w * 4) }

/-- Custom transparent-trim fallback of `processJerseyImage`: run the four
edge scans (threshold 5 in the source), set `hasContent` when any scan
hits, and extract the content region only when `hasContent && minX < maxX
&& minY < maxY` and the bounds are strictly inside the frame
(`minX > 0 || minY > 0 || maxX < width - 1 || maxY < height - 1`);
otherwise return the input image unchanged. -/
def customTrim (img : RasterImage) (t : Nat) : RasterImage :=
  let topScan := scanFirst (rowHasContent img t) img.height
  let bottomScan := scanLast (rowHasContent img t) img.height
  let minY := topScan.getD img.height
  let maxY := bottomScan.getD 0
  let leftScan := scanFirst (colHasContent img t minY maxY) img.width
  let rightScan := scanLast (colHasContent img t minY maxY) img.width
  let minX := leftScan.getD img.width
  let maxX := rightScan.getD 0
  let hasContent := topScan.isSome || bottomScan.isSome || leftScan.isSome || rightScan.isSome
  if hasContent ∧ minX < maxX ∧ minY < maxY then
    if 0 < minX ∨ 0 < minY ∨ maxX < img.width - 1 ∨ maxY < img.height - 1 then
      extractRegion img minX minY (maxX - minX + 1) (maxY - minY + 1)
    else img
  else img

/-- Prepared collar overlay: both dimensions halved with floor
(`Math.floor(meta.width * 0.5)`), horizontally centered on the trimmed
width (`Math.floor((width - collarWidth) / 2)`, floor division over
possibly negative integers). -/
structure CollarPrep where
  collarWidth : Nat
  collarHeight : Nat
  collarLeft : Int
deriving DecidableEq

def prepareCollar (metaWidth metaHeight width : Nat) : CollarPrep :=
  { collarWidth := metaWidth / 2,
    collarHeight := metaHeight / 2,
    collarLeft := Int.fdiv ((width : Int) - ((metaWidth / 2 : Nat) : Int)) 2 }

/-- Collar input as the pipeline observes it: the path is null or the
file does not exist (`absent`), the file exists but decoding its
metadata fails with a message (`unreadable`), or it decodes to a raster
of the given metadata dimensions (`readable`). -/
inductive CollarSource where
  | absent : CollarSource
  | unreadable : String → CollarSource
  | readable : Nat → Nat → CollarSource
deriving DecidableEq

/-- Collar stage of `processJerseyImage` (the service module): the stage
runs under `if (collarPath && fs.existsSync(collarPath))`, so an absent
collar is skipped; a decode failure inside the guarded block is caught
only by the outer try/catch, which rethrows
`Image processing failed: <msg>` to the caller. -/
def collarStageServer (src : CollarSource) (width : Nat) :
    Except String (Option CollarPrep) :=
  match src with
  | .absent => .ok none
  | .unreadable msg => .error ("Image processing failed: " ++ msg)
  | .readable w h => .ok (some (prepareCollar w h width))

/-- Collar stage of `createTightJerseyTemplate` (the standalone script):
the whole block sits in a dedicated try/catch that logs and continues,
so both an absent and an unreadable collar yield no collar layer. -/
def collarStageScript (src : CollarSource) (width : Nat) : Option CollarPrep :=
  match src with
  | .absent => none
  | .unreadable _ => none
  | .readable w h => some (prepareCollar w h width)

/-- Tag naming which buffer a composite layer draws. -/
inductive LayerImage where
  | back : LayerImage
  | front : LayerImage
  | collar : LayerImage
deriving DecidableEq

/-- One entry of the `compositeLayers` array: which buffer, and its
`top` / `left` placement (signed, may be negative). -/
structure CompositeLayer where
  input : LayerImage
  top : Int
  left : Int
deriving DecidableEq

/-- Result of the stacking arithmetic and canvas sizing. -/
structure ComposeResult where
  backTop : Int
  frontTop : Int
  totalHeight : Int
  canvasWidth : Nat
  collarTop : Int
  layers : List CompositeLayer
deriving DecidableEq

/-- Stacking arithmetic of the compositor:
`backTop = 0 - backBounds.top`,
`backBottomContentY = backTop + backBounds.bottom`,
`frontTop = backBottomContentY + gap - frontBounds.top`,
`totalHeight = frontTop + frontBounds.bottom + 1`; the canvas is created
with the trimmed `width` and `totalHeight`; layers are back then front
(both at `left = 0`), plus the collar at
`collarTop = Math.floor((totalHeight - collarHeight) / 2)` — computed
from the final `totalHeight` — when a prepared collar is present. -/
def composeLayout (width : Nat) (backBounds frontBounds : ContentBounds)
    (gap : Int) (collar : Option CollarPrep) : ComposeResult :=
  let backTop : Int := 0 - (backBounds.top : Int)
  let backBottomContentY : Int := backTop + (backBounds.bottom : Int)
  let frontTop : Int := backBottomContentY + gap - (frontBounds.top : Int)
  let frontBottomContentY : Int := frontTop + (frontBounds.bottom : Int)
  let totalHeight : Int := frontBottomContentY + 1
  match collar with
  | none =>
    { backTop := backTop, frontTop := frontTop, totalHeight := totalHeight,
      canvasWidth := width, collarTop := 0,
      layers := [⟨.back, backTop, 0⟩, ⟨.front, frontTop, 0⟩] }
  | some c =>
    let collarTop : Int := Int.fdiv (totalHeight - (c.collarHeight : Int)) 2
    { backTop := backTop, frontTop := frontTop, totalHeight := totalHeight,
      canvasWidth := width, collarTop := collarTop,
      layers := [⟨.back, backTop, 0⟩, ⟨.front, frontTop, 0⟩,
                 ⟨.collar, collarTop, c.collarLeft⟩] }

/-- Fully transparent 2×2 RGBA raster. -/
def blank2 : RasterImage :=
  ⟨2, 2, [[0, 0, 0, 0, 0, 0, 0, 0], [0, 0, 0, 0, 0, 0, 0, 0]]⟩

/-- 4×4 raster whose fully opaque content is exactly the rectangle with
rows 1–2 and columns 1–2, transparent elsewhere. -/
def rect4 : RasterImage :=
  ⟨4, 4,
    [[0, 0, 0, 0, 0, 0, 0, 0, 0, 0, 0, 0, 0, 0, 0, 0],
     [0, 0, 0, 0, 255, 255, 255, 255, 255, 255, 255, 255, 0, 0, 0, 0],
     [0, 0, 0, 0, 255, 255, 255, 255, 255, 255, 255, 255, 0, 0, 0, 0],
     [0, 0, 0, 0, 0, 0, 0, 0, 0, 0, 0, 0, 0, 0, 0, 0]]⟩

/-- 1×2 raster whose only content pixel is in the bottom row. -/
def stripe12 : RasterImage := ⟨1, 2, [[0, 0, 0, 0], [9, 9, 9, 255]]⟩

/-- 1×2 raster with two distinct rows of arbitrary bytes. -/
def twoRows : RasterImage := ⟨1, 2, [[1, 2, 3, 4], [5, 6, 7, 8]]⟩

/-- Content bounds spanning inclusive rows 0–9 and columns 0–9. -/
def bounds09 : ContentBounds := ⟨0, 9, 0, 9, 10, 10⟩

/-- C1: the claim says that with `gap = 0` the front layer's top content
row equals the back layer's bottom content row + 1 (touching without
overlap).  Evaluating the compositor arithmetic at equal 10-row bounds
and `gap = 0` shows the front's top content row
(`frontTop + frontBounds.top`) instead coincides with the back's bottom
content row (`backTop + backBounds.bottom`) — a one-row overlap —
contradicting the claim and the source's own comment that `0` means
"perfect touch (no gap, no overlap)". -/
theorem c1_gap_zero_one_row_overlap :
    (composeLayout 10 bounds09 bounds09 0 none).frontTop + (bounds09.top : Int)
        = (composeLayout 10 bounds09 bounds09 0 none).backTop + (bounds09.bottom : Int)
    ∧ ¬ ((composeLayout 10 bounds09 bounds09 0 none).frontTop + (bounds09.top : Int)
        = (composeLayout 10 bounds09 bounds09 0 none).backTop + (bounds09.bottom : Int) + 1)
    ∧ (composeLayout 10 bounds09 bounds09 (-18) none).frontTop + (bounds09.top : Int)
        = (composeLayout 10 bounds09 bounds09 (-18) none).backTop + (bounds09.bottom : Int) - 18 := by
  decide

/-- C2: for every trimmed width, pair of per-side content bounds, gap and
optional collar, the composed canvas width equals the trimmed width and
the canvas height equals `frontTop + frontBounds.bottom + 1`. -/
theorem c2_canvas_dimensions (width : Nat) (backBounds frontBounds : ContentBounds)
    (gap : Int) (collar : Option CollarPrep) :
    (composeLayout width backBounds frontBounds gap collar).canvasWidth = width
    ∧ (composeLayout width backBounds frontBounds gap collar).totalHeight
        = (composeLayout width backBounds frontBounds gap collar).frontTop
          + (frontBounds.bottom : Int) + 1 := by
  cases collar <;> simp [composeLayout]

/-- C4 counterexample: the claim says an unreadable collar never surfaces
to the caller as an error, but in the service module an existing yet
unreadable collar file makes the whole pipeline fail with
`Image processing failed: …`. -/
theorem c4_unreadable_collar_is_error :
    collarStageServer (CollarSource.unreadable "bad collar") 100
      = Except.error "Image processing failed: bad collar"
    ∧ ¬ (collarStageServer (CollarSource.unreadable "bad collar") 100
      = Except.ok none) := by
  constructor
  · rfl
  · intro h; cases h

/-- C4 amended: an absent collar (null path or missing file) is skipped
without error in both implementations and the composite then carries
exactly the back and front layers; an unreadable collar is skipped only
by the standalone script, while the service module surfaces it as an
`Image processing failed` error. -/
theorem c4_absent_collar_skipped (width : Nat) (msg : String)
    (backBounds frontBounds : ContentBounds) (gap : Int) :
    collarStageServer CollarSource.absent width = Except.ok none
    ∧ collarStageScript CollarSource.absent width = none
    ∧ collarStageScript (CollarSource.unreadable msg) width = none
    ∧ collarStageServer (CollarSource.unreadable msg) width
        = Except.error ("Image processing failed: " ++ msg)
    ∧ (composeLayout width backBounds frontBounds gap none).layers
        = [⟨LayerImage.back, (composeLayout width backBounds frontBounds gap none).backTop, 0⟩,
           ⟨LayerImage.front, (composeLayout width backBounds frontBounds gap none).frontTop, 0⟩] := by
  refine ⟨rfl, rfl, rfl, rfl, ?_⟩
  simp [composeLayout]

/-- C6 counterexample: the claim says any placement that would put
content above canvas row 0 is normalized by shifting the whole stack.
With 10-row bounds and `gap = -100` the front layer's top content row is
-91 (above the canvas), yet the layers are composited at the raw
computed offsets — no shift is applied — so the stack's topmost content
does not lie at row 0. -/
theorem c6_no_normalizing_shift :
    (composeLayout 10 bounds09 bounds09 (-100) none).frontTop + (bounds09.top : Int) < 0
    ∧ (composeLayout 10 bounds09 bounds09 (-100) none).layers
        = [⟨LayerImage.back, 0, 0⟩, ⟨LayerImage.front, -91, 0⟩] := by
  decide

/-- C6 amended: the back layer is placed at `backTop = -backBounds.top`,
so its top content edge always lands at canvas row 0; the front layer's
top content row equals `backBounds.bottom - backBounds.top + gap`, which
is negative (content above row 0, merely clipped, never shifted) exactly
when `gap < -(backBounds.bottom - backBounds.top)`. -/
theorem c6_back_content_at_row_zero (width : Nat)
    (backBounds frontBounds : ContentBounds) (gap : Int)
    (collar : Option CollarPrep) :
    (composeLayout width backBounds frontBounds gap collar).backTop
        + (backBounds.top : Int) = 0
    ∧ (composeLayout width backBounds frontBounds gap collar).frontTop
        + (frontBounds.top : Int)
        = (backBounds.bottom : Int) - (backBounds.top : Int) + gap := by
  cases collar <;> simp [composeLayout] <;> ring

/-- C9: for every collar overlay of original size `W×H`, the prepared
collar measures `⌊W/2⌋ × ⌊H/2⌋`, its horizontal offset is
`⌊(width - collarWidth) / 2⌋`, and its vertical offset is
`⌊(totalHeight - collarHeight) / 2⌋` computed from the compositor's
final `totalHeight`; the collar layer enters the composite at exactly
these offsets. -/
theorem c9_collar_geometry (metaW metaH width : Nat)
    (backBounds frontBounds : ContentBounds) (gap : Int) :
    (prepareCollar metaW metaH width).collarWidth = metaW / 2
    ∧ (prepareCollar metaW metaH width).collarHeight = metaH / 2
    ∧ (prepareCollar metaW metaH width).collarLeft
        = Int.fdiv ((width : Int) - ((metaW / 2 : Nat) : Int)) 2
    ∧ (composeLayout width backBounds frontBounds gap
          (some (prepareCollar metaW metaH width))).collarTop
        = Int.fdiv ((composeLayout width backBounds frontBounds gap
              (some (prepareCollar metaW metaH width))).totalHeight
            - ((metaH / 2 : Nat) : Int)) 2
    ∧ (⟨LayerImage.collar,
          (composeLayout width backBounds frontBounds gap
            (some (prepareCollar metaW metaH width))).collarTop,
          (prepareCollar metaW metaH width).collarLeft⟩ : CompositeLayer)
        ∈ (composeLayout width backBounds frontBounds gap
            (some (prepareCollar metaW metaH width))).layers := by
  refine ⟨rfl, rfl, rfl, rfl, ?_⟩
  simp [composeLayout, prepareCollar]

theorem rowHasContent_iff (img : RasterImage) (t y : Nat) :
    rowHasContent img t y = true ↔ ∃ x, x < img.width ∧ t < img.alphaAt x y := by
  simp [rowHasContent, List.any_eq_true, List.mem_range]

theorem colHasContent_iff (img : RasterImage) (t top bottom x : Nat) :
    colHasContent img t top bottom x = true
      ↔ ∃ y, top ≤ y ∧ y ≤ bottom ∧ t < img.alphaAt x y := by
  simp only [colHasContent, List.any_eq_true, List.mem_range, decide_eq_true_eq]
  constructor
  · rintro ⟨i, hi, ha⟩
    exact ⟨top + i, Nat.le_add_right top i, by omega, ha⟩
  · rintro ⟨y, h1, h2, ha⟩
    refine ⟨y - top, by omega, ?_⟩
    have hy : top + (y - top) = y := by omega
    rw [hy]
    exact ha

/-- C3: for every image whose pixels above the alpha threshold form
exactly a fully opaque axis-aligned rectangle (alpha 255 inside, alpha 0
outside) on an otherwise fully transparent frame, the content-bounds
scanner returns exactly that rectangle's inclusive coordinates. -/
theorem c3_scanner_exact_rectangle (img : RasterImage)
    (t rTop rBottom rLeft rRight : Nat)
    (h1 : rTop ≤ rBottom) (h2 : rBottom < img.height)
    (h3 : rLeft ≤ rRight) (h4 : rRight < img.width)
    (h5 : t < 255)
    (halpha : ∀ x, x < img.width → ∀ y, y < img.height →
      img.alphaAt x y
        = if rTop ≤ y ∧ y ≤ rBottom ∧ rLeft ≤ x ∧ x ≤ rRight then 255 else 0) :
    getContentBounds img t
      = ⟨rTop, rBottom, rLeft, rRight,
         (rBottom : Int) - (rTop : Int) + 1, (rRight : Int) - (rLeft : Int) + 1⟩ := by
  have hrow : ∀ y, y < img.height →
      (rowHasContent img t y = true ↔ (rTop ≤ y ∧ y ≤ rBottom)) := by
    intro y hy
    rw [rowHasContent_iff]
    constructor
    · rintro ⟨x, hx, ha⟩
      rw [halpha x hx y hy] at ha
      by_cases hc : rTop ≤ y ∧ y ≤ rBottom ∧ rLeft ≤ x ∧ x ≤ rRight
      · exact ⟨hc.1, hc.2.1⟩
      · rw [if_neg hc] at ha; omega
    · rintro ⟨hty, hyb⟩
      refine ⟨rLeft, Nat.lt_of_le_of_lt h3 h4, ?_⟩
      rw [halpha rLeft (Nat.lt_of_le_of_lt h3 h4) y hy,
        if_pos ⟨hty, hyb, Nat.le_refl rLeft, h3⟩]
      exact h5
  have hrow_false : ∀ j, j < img.height → ¬ (rTop ≤ j ∧ j ≤ rBottom) →
      rowHasContent img t j = false := by
    intro j hj hc
    cases hb : rowHasContent img t j with
    | false => rfl
    | true => exact absurd ((hrow j hj).mp hb) hc
  have htop : scanFirst (rowHasContent img t) img.height = some rTop :=
    scanFirst_some_of _ _ _ (Nat.lt_of_le_of_lt h1 h2)
      ((hrow rTop (Nat.lt_of_le_of_lt h1 h2)).mpr ⟨Nat.le_refl rTop, h1⟩)
      (fun j hj => hrow_false j (by omega) (by omega))
  have hbot : scanLast (rowHasContent img t) img.height = some rBottom :=
    scanLast_some_of _ _ _ h2
      ((hrow rBottom h2).mpr ⟨h1, Nat.le_refl rBottom⟩)
      (fun j hj1 hj2 => hrow_false j hj2 (by omega))
  have hcol : ∀ x, x < img.width →
      (colHasContent img t rTop rBottom x = true ↔ (rLeft ≤ x ∧ x ≤ rRight)) := by
    intro x hx
    rw [colHasContent_iff]
    constructor
    · rintro ⟨y, hty, hyb, ha⟩
      rw [halpha x hx y (Nat.lt_of_le_of_lt hyb h2)] at ha
      by_cases hc : rTop ≤ y ∧ y ≤ rBottom ∧ rLeft ≤ x ∧ x ≤ rRight
      · exact ⟨hc.2.2.1, hc.2.2.2⟩
      · rw [if_neg hc] at ha; omega
    · rintro ⟨hlx, hxr⟩
      refine ⟨rTop, Nat.le_refl rTop, h1, ?_⟩
      rw [halpha x hx rTop (Nat.lt_of_le_of_lt h1 h2),
        if_pos ⟨Nat.le_refl rTop, h1, hlx, hxr⟩]
      exact h5
  have hcol_false : ∀ j, j < img.width → ¬ (rLeft ≤ j ∧ j ≤ rRight) →
      colHasContent img t rTop rBottom j = false := by
    intro j hj hc
    cases hb : colHasContent img t rTop rBottom j with
    | false => rfl
    | true => exact absurd ((hcol j hj).mp hb) hc
  have hleft : scanFirst (colHasContent img t rTop rBottom) img.width = some rLeft :=
    scanFirst_some_of _ _ _ (Nat.lt_of_le_of_lt h3 h4)
      ((hcol rLeft (Nat.lt_of_le_of_lt h3 h4)).mpr ⟨Nat.le_refl rLeft, h3⟩)
      (fun j hj => hcol_false j (by omega) (by omega))
  have hright : scanLast (colHasContent img t rTop rBottom) img.width = some rRight :=
    scanLast_some_of _ _ _ h4
      ((hcol rRight h4).mpr ⟨h3, Nat.le_refl rRight⟩)
      (fun j hj1 hj2 => hcol_false j hj2 (by omega))
  simp [getContentBounds, htop, hbot, hleft, hright]

/-- C3 witness: on the concrete 4×4 image whose opaque content is the
rectangle rows 1–2, columns 1–2, the scanner returns exactly those
inclusive coordinates. -/
theorem c3_witness : getContentBounds rect4 1 = ⟨1, 2, 1, 2, 2, 2⟩ :=
  c3_scanner_exact_rectangle rect4 1 1 2 1 2 (by decide) (by decide)
    (by decide) (by decide) (by decide) (by decide)

/-- C5 counterexample: on a fully transparent 2×2 image the scanner does
not return a distinct sentinel; it returns the conflated degenerate box
with `top = height` and `bottom = 0` that the claim explicitly rules
out (and `top ≤ bottom` fails). -/
theorem c5_counterexample :
    (getContentBounds blank2 1).top = blank2.height
    ∧ (getContentBounds blank2 1).bottom = 0
    ∧ (getContentBounds blank2 1).left = blank2.width
    ∧ (getContentBounds blank2 1).right = 0
    ∧ ¬ ((getContentBounds blank2 1).top ≤ (getContentBounds blank2 1).bottom) := by
  decide

/-- C5 amended: when some pixel exceeds the threshold the bounds satisfy
`top ≤ bottom` and `left ≤ right`; when none does, the scanner returns
the in-band degenerate values `top = height`, `bottom = 0`,
`left = width`, `right = 0` (the untouched scan sentinels) rather than a
distinct "no content" value. -/
theorem c5_valid_or_inband_sentinel (img : RasterImage) (t : Nat)
    (hwf : img.rows.length = img.height) :
    (hasAnyContent img t = true →
      (getContentBounds img t).top ≤ (getContentBounds img t).bottom
      ∧ (getContentBounds img t).left ≤ (getContentBounds img t).right)
    ∧ (hasAnyContent img t = false →
      getContentBounds img t
        = ⟨img.height, 0, img.width, 0,
           1 - (img.height : Int), 1 - (img.width : Int)⟩) := by
  constructor
  · intro hc
    have hex : ∃ y, y < img.height ∧ rowHasContent img t y = true := by
      rcases List.any_eq_true.mp hc with ⟨y, hy, hp⟩
      exact ⟨y, List.mem_range.mp hy, hp⟩
    obtain ⟨T, hTsf⟩ : ∃ T, scanFirst (rowHasContent img t) img.height = some T := by
      cases hsf : scanFirst (rowHasContent img t) img.height with
      | none =>
        rcases hex with ⟨y, hy, hp⟩
        rw [scanFirst_of_none _ _ hsf y hy] at hp
        cases hp
      | some T => exact ⟨T, rfl⟩
    obtain ⟨B, hBsl⟩ : ∃ B, scanLast (rowHasContent img t) img.height = some B := by
      cases hsl : scanLast (rowHasContent img t) img.height with
      | none =>
        rcases hex with ⟨y, hy, hp⟩
        rw [scanLast_of_none _ _ hsl y hy] at hp
        cases hp
      | some B => exact ⟨B, rfl⟩
    rcases scanFirst_some_spec _ _ _ hTsf with ⟨hTlt, hTp, hTmin⟩
    rcases scanLast_some_spec _ _ _ hBsl with ⟨hBlt, hBp, hBmax⟩
    have hTB : T ≤ B := by
      by_contra hlt
      rw [hTmin B (by omega)] at hBp
      cases hBp
    have hcolex : ∃ x, x < img.width ∧ colHasContent img t T B x = true := by
      rcases (rowHasContent_iff img t T).mp hTp with ⟨x, hx, ha⟩
      exact ⟨x, hx, (colHasContent_iff img t T B x).mpr ⟨T, Nat.le_refl T, hTB, ha⟩⟩
    obtain ⟨L, hLsf⟩ : ∃ L, scanFirst (colHasContent img t T B) img.width = some L := by
      cases hsf : scanFirst (colHasContent img t T B) img.width with
      | none =>
        rcases hcolex with ⟨x, hx, hp⟩
        rw [scanFirst_of_none _ _ hsf x hx] at hp
        cases hp
      | some L => exact ⟨L, rfl⟩
    obtain ⟨R, hRsl⟩ : ∃ R, scanLast (colHasContent img t T B) img.width = some R := by
      cases hsl : scanLast (colHasContent img t T B) img.width with
      | none =>
        rcases hcolex with ⟨x, hx, hp⟩
        rw [scanLast_of_none _ _ hsl x hx] at hp
        cases hp
      | some R => exact ⟨R, rfl⟩
    rcases scanFirst_some_spec _ _ _ hLsf with ⟨hLlt, hLp, hLmin⟩
    rcases scanLast_some_spec _ _ _ hRsl with ⟨hRlt, hRp, hRmax⟩
    have hLR : L ≤ R := by
      by_contra hlt
      rw [hLmin R (by omega)] at hRp
      cases hRp
    simp only [getContentBounds, hTsf, hBsl, Option.getD_some] at *
    simp [hTsf, hBsl, hLsf, hRsl, hTB, hLR]
  · intro hc
    have hall : ∀ y, y < img.height → rowHasContent img t y = false := by
      intro y hy
      have h := List.any_eq_false.mp hc y (List.mem_range.mpr hy)
      simpa using h
    have hsf : scanFirst (rowHasContent img t) img.height = none :=
      scanFirst_none_of _ _ hall
    have hsl : scanLast (rowHasContent img t) img.height = none :=
      scanLast_none_of _ _ hall
    have hcolall : ∀ x, x < img.width →
        colHasContent img t img.height 0 x = false := by
      intro x hx
      cases hh : img.height with
      | zero =>
        have hrows : img.rows = [] := by
          rw [hh] at hwf
          exact List.length_eq_zero.mp hwf
        simp [colHasContent, hh, RasterImage.alphaAt, hrows]
      | succ m =>
        have : m + 1 + 1 - (m + 1) - 1 = 0 := by omega
        simp [colHasContent, hh, Nat.succ_sub_succ]
    have hcsf : scanFirst (colHasContent img t img.height 0) img.width = none :=
      scanFirst_none_of _ _ hcolall
    have hcsl : scanLast (colHasContent img t img.height 0) img.width = none :=
      scanLast_none_of _ _ hcolall
    simp [getContentBounds, hsf, hsl, hcsf, hcsl]
    constructor <;> ring

/-- C5 witness: the amended statement applied to the concrete transparent
2×2 image yields the in-band sentinel `⟨2, 0, 2, 0, -1, -1⟩`. -/
theorem c5_witness :
    getContentBounds blank2 1 = ⟨2, 0, 2, 0, -1, -1⟩ :=
  (c5_valid_or_inband_sentinel blank2 1 (by decide)).2 (by decide)

/-- C7: the custom trim fallback returns its input image unmodified when
no pixel exceeds the alpha threshold, when the computed bounds are
degenerate (`left >= right` or `top >= bottom`), or when the content
already fills the full frame; and whenever it does crop, the produced
buffer is at least 2×2, never zero- or negative-sized. -/
theorem c7_trim_returns_input (img : RasterImage) (t : Nat) :
    (((∀ y, y < img.height → rowHasContent img t y = false)
        ∨ (getContentBounds img t).right ≤ (getContentBounds img t).left
        ∨ (getContentBounds img t).bottom ≤ (getContentBounds img t).top
        ∨ ((getContentBounds img t).left = 0 ∧ (getContentBounds img t).top = 0
            ∧ (getContentBounds img t).right = img.width - 1
            ∧ (getContentBounds img t).bottom = img.height - 1))
      → customTrim img t = img)
    ∧ (customTrim img t = img
        ∨ (2 ≤ (customTrim img t).width ∧ 2 ≤ (customTrim img t).height)) := by
  constructor
  · intro h
    simp only [customTrim]
    rcases h with hnc | hdeg | hdeg | hfull
    · have hsf : scanFirst (rowHasContent img t) img.height = none :=
        scanFirst_none_of _ _ hnc
      have hsl : scanLast (rowHasContent img t) img.height = none :=
        scanLast_none_of _ _ hnc
      rw [hsf, hsl]
      rw [if_neg]
      rintro ⟨-, -, hlt⟩
      simp at hlt
    · have hdeg2 :
          (scanLast (colHasContent img t
              ((scanFirst (rowHasContent img t) img.height).getD img.height)
              ((scanLast (rowHasContent img t) img.height).getD 0)) img.width).getD 0
            ≤ (scanFirst (colHasContent img t
              ((scanFirst (rowHasContent img t) img.height).getD img.height)
              ((scanLast (rowHasContent img t) img.height).getD 0)) img.width).getD img.width :=
        hdeg
      rw [if_neg]
      rintro ⟨-, hlt, -⟩
      omega
    · have hdeg2 :
          (scanLast (rowHasContent img t) img.height).getD 0
            ≤ (scanFirst (rowHasContent img t) img.height).getD img.height :=
        hdeg
      rw [if_neg]
      rintro ⟨-, -, hlt⟩
      omega
    · have hL : (scanFirst (colHasContent img t
            ((scanFirst (rowHasContent img t) img.height).getD img.height)
            ((scanLast (rowHasContent img t) img.height).getD 0)) img.width).getD img.width
          = 0 := hfull.1
      have hT : (scanFirst (rowHasContent img t) img.height).getD img.height = 0 :=
        hfull.2.1
      have hR : (scanLast (colHasContent img t
            ((scanFirst (rowHasContent img t) img.height).getD img.height)
            ((scanLast (rowHasContent img t) img.height).getD 0)) img.width).getD 0
          = img.width - 1 := hfull.2.2.1
      have hB : (scanLast (rowHasContent img t) img.height).getD 0
          = img.height - 1 := hfull.2.2.2
      split
      · rw [if_neg]
        rintro (hlt | hlt | hlt | hlt) <;> omega
      · rfl
  · simp only [customTrim]
    split
    · split
      · rename_i hcond hstrict
        right
        refine ⟨?_, ?_⟩ <;> simp only [extractRegion] <;> omega
      · left; rfl
    · left; rfl

/-- C7 witness: on the concrete fully transparent 2×2 image (no pixel
above the fallback threshold 5) the custom trim returns the image
unchanged. -/
theorem c7_witness : customTrim blank2 5 = blank2 :=
  (c7_trim_returns_input blank2 5).1 (Or.inl (by decide))

theorem getD_reverse {α : Type} (l : List α) (d : α) (y : Nat)
    (hy : y < l.length) :
    l.reverse.getD y d = l.getD (l.length - 1 - y) d := by
  rw [List.getD_eq_getElem?_getD, List.getD_eq_getElem?_getD,
    List.getElem?_reverse hy]

/-- C8: the mirror (vertical flip) keeps width, height and channel
layout, reverses the rows top-to-bottom with every byte of each row
preserved exactly, and is an involution: flipping twice reproduces the
original image byte-for-byte. -/
theorem c8_mirror_involution (img : RasterImage) :
    (flip img).width = img.width
    ∧ (flip img).height = img.height
    ∧ (∀ y, y < img.rows.length →
        (flip img).rows.getD y [] = img.rows.getD (img.rows.length - 1 - y) [])
    ∧ flip (flip img) = img := by
  refine ⟨rfl, rfl, ?_, ?_⟩
  · intro y hy
    exact getD_reverse img.rows [] y hy
  · cases img with
    | mk w h rows => simp [flip]

/-- C8 witness: on the concrete two-row image, row 0 of the flip is the
original row 1 and flipping twice restores the image. -/
theorem c8_witness :
    (flip twoRows).rows.getD 0 [] = twoRows.rows.getD 1 []
    ∧ flip (flip twoRows) = twoRows :=
  ⟨(c8_mirror_involution twoRows).2.2.1 0 (by decide),
   (c8_mirror_involution twoRows).2.2.2⟩

/-- C10: for every well-formed image of height `h` with some pixel above
the threshold, the content bounds of its vertical flip satisfy
`top = h - 1 - bottom₀` and `bottom = h - 1 - top₀` relative to the
original bounds, and the two content heights coincide. -/
theorem c10_flip_bounds (img : RasterImage) (t : Nat)
    (hwf : img.rows.length = img.height)
    (hc : hasAnyContent img t = true) :
    (getContentBounds (flip img) t).top
        = img.height - 1 - (getContentBounds img t).bottom
    ∧ (getContentBounds (flip img) t).bottom
        = img.height - 1 - (getContentBounds img t).top
    ∧ (getContentBounds (flip img) t).height = (getContentBounds img t).height := by
  have hex : ∃ y, y < img.height ∧ rowHasContent img t y = true := by
    rcases List.any_eq_true.mp hc with ⟨y, hy, hp⟩
    exact ⟨y, List.mem_range.mp hy, hp⟩
  have hpos : 0 < img.height := by
    rcases hex with ⟨y, hy, -⟩
    omega
  obtain ⟨T, hTsf⟩ : ∃ T, scanFirst (rowHasContent img t) img.height = some T := by
    cases hsf : scanFirst (rowHasContent img t) img.height with
    | none =>
      rcases hex with ⟨y, hy, hp⟩
      rw [scanFirst_of_none _ _ hsf y hy] at hp
      cases hp
    | some T => exact ⟨T, rfl⟩
  obtain ⟨B, hBsl⟩ : ∃ B, scanLast (rowHasContent img t) img.height = some B := by
    cases hsl : scanLast (rowHasContent img t) img.height with
    | none =>
      rcases hex with ⟨y, hy, hp⟩
      rw [scanLast_of_none _ _ hsl y hy] at hp
      cases hp
    | some B => exact ⟨B, rfl⟩
  rcases scanFirst_some_spec _ _ _ hTsf with ⟨hTlt, hTp, hTmin⟩
  rcases scanLast_some_spec _ _ _ hBsl with ⟨hBlt, hBp, hBmax⟩
  have hTB : T ≤ B := by
    by_contra hlt
    rw [hTmin B (by omega)] at hBp
    cases hBp
  have halpha : ∀ x y, y < img.height →
      (flip img).alphaAt x y = img.alphaAt x (img.height - 1 - y) := by
    intro x y hy
    show (img.rows.reverse.getD y []).getD (x * 4 + 3) 0
      = (img.rows.getD (img.height - 1 - y) []).getD (x * 4 + 3) 0
    rw [getD_reverse img.rows [] y (by omega), hwf]
  have hrowflip : ∀ y, y < img.height →
      rowHasContent (flip img) t y = rowHasContent img t (img.height - 1 - y) := by
    intro y hy
    unfold rowHasContent
    have hw : (flip img).width = img.width := rfl
    rw [hw]
    congr 1
    funext x
    rw [halpha x y hy]
  have hfh : (flip img).height = img.height := rfl
  have htopflip :
      scanFirst (rowHasContent (flip img) t) (flip img).height
        = some (img.height - 1 - B) := by
    rw [hfh]
    apply scanFirst_some_of
    · omega
    · rw [hrowflip (img.height - 1 - B) (by omega)]
      have hB : img.height - 1 - (img.height - 1 - B) = B := by omega
      rw [hB]
      exact hBp
    · intro j hj
      rw [hrowflip j (by omega)]
      exact hBmax (img.height - 1 - j) (by omega) (by omega)
  have hbotflip :
      scanLast (rowHasContent (flip img) t) (flip img).height
        = some (img.height - 1 - T) := by
    rw [hfh]
    apply scanLast_some_of
    · omega
    · rw [hrowflip (img.height - 1 - T) (by omega)]
      have hT : img.height - 1 - (img.height - 1 - T) = T := by omega
      rw [hT]
      exact hTp
    · intro j hj1 hj2
      rw [hrowflip j hj2]
      exact hTmin (img.height - 1 - j) (by omega)
  refine ⟨?_, ?_, ?_⟩
  · simp [getContentBounds, htopflip, hBsl]
  · simp [getContentBounds, hbotflip, hTsf]
  · simp only [getContentBounds, htopflip, hbotflip, hTsf, hBsl, Option.getD_some]
    omega

/-- C10 witness: on the 1×2 image whose only content pixel is in the
bottom row, the flip's bounds are row 0 to row 0, matching
`h - 1 - bottom₀ = 0` and `h - 1 - top₀ = 0` with the same 1-row
content height. -/
theorem c10_witness :
    (getContentBounds (flip stripe12) 1).top
        = stripe12.height - 1 - (getContentBounds stripe12 1).bottom
    ∧ (getContentBounds (flip stripe12) 1).bottom
        = stripe12.height - 1 - (getContentBounds stripe12 1).top
    ∧ (getContentBounds (flip stripe12) 1).height
        = (getContentBounds stripe12 1).height :=
  c10_flip_bounds stripe12 1 (by decide) (by decide)

end Jersey
